import Mathlib

/-!
Verification of the annotation-gap detection engine of a Python type-hint
checker written in Rust.  The development shallowly embeds the core of
`src/main.rs`: the syntax-tree interface consumed from tree-sitter (node
kind, numeric kind id, positions, extracted source text, ordered children),
the detection pass `find_missing_types_positions`, the diagnostic formatter
`get_message_from_positions`, the per-file aggregation
`add_to_message_from_file`, the success sentinel of `main`, and the
directory-walk filtering (`NotHidden` / `NotTest` under `filter_entry`).
Rust panics are modelled by `Option.none`; the `{}` integer formatting of
`format!` is modelled by `natToStr`; `str::split` is modelled by
`rustSplit`.
-/

set_option maxHeartbeats 1000000

namespace Checker

/-- Numeric kind tag of a parameter-list node (`PARAMETERS_KIND` in the source). -/
def PARAMETERS_KIND : Nat := 147

/-- Numeric kind tag of a typed parameter (`_TYPED_PARAMETER` in the source). -/
def TYPED_PARAMETER : Nat := 206

/-- Numeric kind tag of a typed parameter with default (`_TYPED_DEFAULT_PARAMETER`). -/
def TYPED_DEFAULT_PARAMETER : Nat := 183

/-- Numeric kind tag of a plain identifier (`IDENTIFIER` in the source). -/
def IDENTIFIER : Nat := 1

/-- Numeric kind tag of an identifier with default value (`DEFAULT_PARAMETER`). -/
def DEFAULT_PARAMETER : Nat := 182

/-- A (row, column) source location, 0-based, as in `tree_sitter::Point`. -/
structure Point where
  row : Nat
  column : Nat
deriving DecidableEq, Repr

/-- The two finding categories of the detector (`enum MissingType`). -/
inductive MissingType where
  | Return (name : String)
  | Parameter (name : String)
deriving DecidableEq, Repr

/-- One finding with its source span (`struct Position` in the source). -/
structure Position where
  start : Point
  end_ : Point
  missing_type : MissingType
deriving DecidableEq, Repr

/-- A syntax-tree node as consumed from the tree-sitter interface: a kind
string, a numeric kind id, start/end positions, the extracted UTF-8 source
text of the node, and the ordered list of all children (named and
anonymous), matching `node.children(&mut cursor)`. -/
inductive Node where
  | mk (kind : String) (kind_id : Nat) (start_position : Point) (end_position : Point)
      (text : String) (children : List Node)

def Node.kind : Node → String
  | .mk k _ _ _ _ _ => k

def Node.kind_id : Node → Nat
  | .mk _ i _ _ _ _ => i

def Node.start_position : Node → Point
  | .mk _ _ s _ _ _ => s

def Node.end_position : Node → Point
  | .mk _ _ _ e _ _ => e

def Node.text : Node → String
  | .mk _ _ _ _ t _ => t

def Node.children : Node → List Node
  | .mk _ _ _ _ _ cs => cs

mutual

/-- Pre-order traversal of a tree, as produced by
`tree_sitter_traversal::traverse(walk, Order::Pre)`. -/
def Node.preorder : Node → List Node
  | .mk k i s e t cs => .mk k i s e t cs :: preorderList cs

def preorderList : List Node → List Node
  | [] => []
  | n :: ns => n.preorder ++ preorderList ns

end

/-- Findings produced while scanning the children of one parameter-list
child of a function node: every inner child whose kind id is `IDENTIFIER`
or `DEFAULT_PARAMETER` and whose text is not exactly `self` yields a
`MissingType.Parameter` finding at the inner child's own span. -/
def paramFindingsOfParameters (c : Node) : List Position :=
  c.children.filterMap fun inner =>
    if inner.kind_id = IDENTIFIER ∨ inner.kind_id = DEFAULT_PARAMETER then
      if inner.text = "self" then none
      else some ⟨inner.start_position, inner.end_position, MissingType.Parameter inner.text⟩
    else none

/-- All parameter findings of one function node, in child order: each child
whose kind id is `PARAMETERS_KIND` contributes its inner findings. -/
def paramPositions (n : Node) : List Position :=
  ((n.children.filter fun c => c.kind_id == PARAMETERS_KIND).map paramFindingsOfParameters).flatten

/-- The missing-return part of processing one function node.  Mirrors the
post-children check of the source: when no child has kind `type` and
`ignore_return` is false, the display name is read from child 1 (falling
back to child 2 when child 1's text is the keyword `def`); a missing child
is a panic (`none`); a name of exactly `main` suppresses the finding. -/
def returnPositions (n : Node) (ignore_return : Bool) : Option (List Position) :=
  if !(n.children.any fun c => c.kind == "type") && !ignore_return then
    match n.children.get? 1 with
    | none => none
    | some identifier =>
      if identifier.text == "def" then
        match n.children.get? 2 with
        | none => none
        | some identifier2 =>
          if identifier2.text == "main" then some []
          else some [⟨n.start_position, n.end_position, MissingType.Return identifier2.text⟩]
      else if identifier.text == "main" then some []
      else some [⟨n.start_position, n.end_position, MissingType.Return identifier.text⟩]
  else some []

/-- The display name the detector would extract for a function node:
child 1's text, or child 2's text when child 1 reads `def`; `none` when the
required child is absent. -/
def displayName (n : Node) : Option String :=
  match n.children.get? 1 with
  | none => none
  | some identifier =>
    if identifier.text == "def" then (n.children.get? 2).map Node.text
    else some identifier.text

/-- Findings contributed by one visited node of the traversal: a
non-function node contributes nothing; a function node contributes its
parameter findings followed by its missing-return finding (if any); a
panic while extracting the function name aborts (`none`). -/
def nodeFindings (n : Node) (ignore_return : Bool) : Option (List Position) :=
  if n.kind == "function_definition" then
    match returnPositions n ignore_return with
    | none => none
    | some ret => some (paramPositions n ++ ret)
  else some []

/-- Sequencing of per-node findings over a list of visited nodes, aborting
on the first panic. -/
def findList : List Node → Bool → Option (List Position)
  | [], _ => some []
  | n :: ns, ignore_return =>
    match nodeFindings n ignore_return, findList ns ignore_return with
    | some l, some r => some (l ++ r)
    | _, _ => none

/-- The detection pass `find_missing_types_positions`: pre-order traversal
of the whole tree, collecting the findings of every function-definition
node; `none` models a panic. -/
def find_missing_types_positions (tree : Node) (ignore_return : Bool) : Option (List Position) :=
  findList tree.preorder ignore_return

/-- Is a finding a parameter finding? -/
def isParam (p : Position) : Bool :=
  match p.missing_type with
  | MissingType.Parameter _ => true
  | MissingType.Return _ => false

/-- The character for the decimal digit `d` (`0 ≤ d ≤ 9`). -/
def digitChar (d : Nat) : Char := Char.ofNat (48 + d)

/-- Fuel-driven digit accumulation: with enough fuel, the decimal digits
of `n`, most significant first. -/
def natDigitsAux : Nat → Nat → List Char
  | 0, _ => []
  | fuel + 1, n =>
    if n < 10 then [digitChar n]
    else natDigitsAux fuel (n / 10) ++ [digitChar (n % 10)]

/-- Decimal digits of a natural number, most significant first: the
embedding of Rust's `{}` formatting of an unsigned integer (`n + 1` fuel
always suffices since the argument shrinks by a factor of ten). -/
def natDigits (n : Nat) : List Char := natDigitsAux (n + 1) n

/-- Decimal rendering of a natural number. -/
def natToStr (n : Nat) : String := String.mk (natDigits n)

/-- The loop body of the diagnostic formatter: appends to the accumulated
message the one line the source's `format!` produces for a finding, with
rows and columns shifted from 0-based to 1-based. -/
def appendFindingLine (message : String) (position : Position) : String :=
  match position.missing_type with
  | MissingType.Return name =>
      message ++
        ("Function \x27" ++ name ++ "\x27 in line " ++ natToStr (position.start.row + 1) ++
          " and column " ++ natToStr (position.start.column + 1) ++
          " is missing a return type.\n")
  | MissingType.Parameter name =>
      message ++
        ("Parameter \x27" ++ name ++ "\x27 in line " ++ natToStr (position.start.row + 1) ++
          " and column " ++ natToStr (position.start.column + 1) ++
          " is missing a type hint.\n")

/-- The diagnostic formatter `get_message_from_positions`: accumulates one
line per finding into a message string, in input order. -/
def get_message_from_positions (positions : List Position) : String :=
  positions.foldl appendFindingLine ""

/-- Spec-side rendering of a single finding, following the formatter
contract of the specification word for word: `Function '<name>' in line
<row+1> and column <col+1> is missing a return type.` for return findings,
`Parameter '<name>' in line <row+1> and column <col+1> is missing a type
hint.` for parameter findings, newline-terminated. -/
def render_finding_spec (p : Position) : String :=
  match p.missing_type with
  | MissingType.Return name =>
      "Function \x27" ++ name ++ "\x27 in line " ++ natToStr (p.start.row + 1) ++
        " and column " ++ natToStr (p.start.column + 1) ++ " is missing a return type.\n"
  | MissingType.Parameter name =>
      "Parameter \x27" ++ name ++ "\x27 in line " ++ natToStr (p.start.row + 1) ++
        " and column " ++ natToStr (p.start.column + 1) ++ " is missing a type hint.\n"

/-- The body of a rendered line, without its terminating newline. -/
def render_finding_body (p : Position) : String :=
  match p.missing_type with
  | MissingType.Return name =>
      "Function \x27" ++ name ++ "\x27 in line " ++ natToStr (p.start.row + 1) ++
        " and column " ++ natToStr (p.start.column + 1) ++ " is missing a return type."
  | MissingType.Parameter name =>
      "Parameter \x27" ++ name ++ "\x27 in line " ++ natToStr (p.start.row + 1) ++
        " and column " ++ natToStr (p.start.column + 1) ++ " is missing a type hint."

/-- The reported name of a finding. -/
def findingName (m : MissingType) : String :=
  match m with
  | MissingType.Return name => name
  | MissingType.Parameter name => name

/-- Concatenation of a list of strings in order. -/
def concatStrings : List String → String
  | [] => ""
  | s :: rest => s ++ concatStrings rest

/-- The splitting behaviour of Rust's `str::split(sep)` on a character
separator, over the character list of the string: the empty input yields
one empty piece, and a trailing separator yields a trailing empty piece. -/
def rustSplit (sep : Char) : List Char → List (List Char)
  | [] => [[]]
  | a :: rest =>
    if a = sep then [] :: rustSplit sep rest
    else
      match rustSplit sep rest with
      | [] => [[a]]
      | l :: ls => (a :: l) :: ls

/-- Rust's `str::ends_with` on string suffixes. -/
def strEndsWith (s suffix : String) : Bool :=
  if suffix.data.length ≤ s.data.length then
    s.data.drop (s.data.length - suffix.data.length) == suffix.data
  else false

/-- Rust's `str::starts_with(char)`. -/
def startsWithChar (s : String) (c : Char) : Bool :=
  match s.data with
  | [] => false
  | a :: _ => a = c

/-- Rust's `str::starts_with(&str)`. -/
def strStartsWith (s p : String) : Bool :=
  s.data.take p.data.length == p.data

/-- A directory entry as seen by the per-file aggregation step, with the
detector-formatter output already computed for it (the result
`get_message_from_file` would produce for its path). -/
structure DirEntryModel where
  is_dir : Bool
  file_name : String
  path : String
  detector_output : String
deriving DecidableEq, Repr

/-- The text `add_to_message_from_file` appends to the shared report for
one entry: nothing for directories, non-`.py` files and files with empty
detector output; otherwise a `File: <path>` header followed by each piece
of the newline-split output indented by four spaces and newline-terminated. -/
def add_to_message_from_file (entry : DirEntryModel) : String :=
  if !entry.is_dir && strEndsWith entry.file_name ".py" then
    if entry.detector_output = "" then ""
    else
      ("File: " ++ entry.path ++ "\n") ++
        concatStrings ((rustSplit '\n' entry.detector_output.data).map
          fun line => "    " ++ String.mk line ++ "\n")
  else ""

/-- The accumulated report of a directory run, folding the per-entry
contributions in the order the entries complete. -/
def run_directory (entries : List DirEntryModel) : String :=
  entries.foldl (fun message entry => message ++ add_to_message_from_file entry) ""

/-- The success sentinel printed by `println!("✨ All good!")`, including
the newline `println!` appends. -/
def allGoodLine : String := "✨ All good!\n"

/-- What `main` prints given the accumulated report: the success sentinel
when the report is empty, the report itself otherwise.  Both the directory
branch and the single-file branch of `main` end in this check. -/
def program_output (report : String) : String :=
  if report = "" then allGoodLine else report

/-- What a single-file run prints: `get_message_from_file` formats the
file's findings and `main` prints the sentinel when that message is empty,
the message itself otherwise. -/
def run_single_file (positions : List Position) : String :=
  program_output (get_message_from_positions positions)

/-- A filesystem entry for the directory walk: a name (last path
component), a directory flag and the ordered child entries. -/
inductive FsEntry where
  | mk (name : String) (is_dir : Bool) (children : List FsEntry)

def FsEntry.name : FsEntry → String
  | .mk n _ _ => n

def FsEntry.is_dir : FsEntry → Bool
  | .mk _ d _ => d

def FsEntry.children : FsEntry → List FsEntry
  | .mk _ _ cs => cs

mutual

/-- The entries yielded by `walkdir` under `filter_entry(keep)`: an entry
failing `keep` is neither yielded nor descended into. -/
def visit (keep : FsEntry → Bool) : FsEntry → List FsEntry
  | .mk n d cs => if keep (.mk n d cs) then .mk n d cs :: visitList keep cs else []

def visitList (keep : FsEntry → Bool) : List FsEntry → List FsEntry
  | [] => []
  | e :: es => visit keep e ++ visitList keep es

end

/-- The `NotHidden` filter: keep entries whose name does not start with a
dot, plus the walk root whose name is exactly `.`. -/
def notHidden_should_be_processed (e : FsEntry) : Bool :=
  !(startsWithChar e.name '.') || e.name == "."

/-- The `NotTest` filter: drop entries named `tests` or starting with
`test_`. -/
def notTest_should_be_processed (e : FsEntry) : Bool :=
  !(strStartsWith e.name "test_") && e.name != "tests"

/-- The filter list `main` builds from the flags: `NotHidden` when
`ignore_hidden`, then `NotTest` when `ignore_tests`. -/
def filtersFor (ignore_hidden ignore_tests : Bool) : List (FsEntry → Bool) :=
  (if ignore_hidden then [notHidden_should_be_processed] else []) ++
    (if ignore_tests then [notTest_should_be_processed] else [])

/-- The `filter_entry` predicate: all active filters accept the entry. -/
def should_be_processed_all (filters : List (FsEntry → Bool)) (e : FsEntry) : Bool :=
  filters.all fun f => f e

/-- The list of entries a directory-mode run visits under the given
filters. -/
def walkdir_visit (filters : List (FsEntry → Bool)) (root : FsEntry) : List FsEntry :=
  visit (should_be_processed_all filters) root

/-- The tree of the input `def f(a, b: int = 5):` followed by an indented
`pass`, with the node kinds and kind ids tree-sitter-python assigns. -/
def exampleTreeFAB : Node :=
  Node.mk "module" 110 ⟨0, 0⟩ ⟨1, 8⟩ "def f(a, b: int = 5):\n    pass" [
    Node.mk "function_definition" 161 ⟨0, 0⟩ ⟨1, 8⟩ "def f(a, b: int = 5):\n    pass" [
      Node.mk "def" 30 ⟨0, 0⟩ ⟨0, 3⟩ "def" [],
      Node.mk "identifier" 1 ⟨0, 4⟩ ⟨0, 5⟩ "f" [],
      Node.mk "parameters" 147 ⟨0, 5⟩ ⟨0, 20⟩ "(a, b: int = 5)" [
        Node.mk "(" 7 ⟨0, 5⟩ ⟨0, 6⟩ "(" [],
        Node.mk "identifier" 1 ⟨0, 6⟩ ⟨0, 7⟩ "a" [],
        Node.mk "," 8 ⟨0, 7⟩ ⟨0, 8⟩ "," [],
        Node.mk "typed_default_parameter" 183 ⟨0, 9⟩ ⟨0, 19⟩ "b: int = 5" [
          Node.mk "identifier" 1 ⟨0, 9⟩ ⟨0, 10⟩ "b" [],
          Node.mk ":" 9 ⟨0, 10⟩ ⟨0, 11⟩ ":" [],
          Node.mk "type" 188 ⟨0, 12⟩ ⟨0, 15⟩ "int" [],
          Node.mk "=" 10 ⟨0, 16⟩ ⟨0, 17⟩ "=" [],
          Node.mk "integer" 92 ⟨0, 18⟩ ⟨0, 19⟩ "5" []],
        Node.mk ")" 11 ⟨0, 19⟩ ⟨0, 20⟩ ")" []],
      Node.mk ":" 9 ⟨0, 20⟩ ⟨0, 21⟩ ":" [],
      Node.mk "block" 160 ⟨1, 4⟩ ⟨1, 8⟩ "pass" [
        Node.mk "pass_statement" 127 ⟨1, 4⟩ ⟨1, 8⟩ "pass" []]]]

/-- The tree of the input `def main():` followed by an indented `pass`. -/
def exampleTreeMain : Node :=
  Node.mk "module" 110 ⟨0, 0⟩ ⟨1, 8⟩ "def main():\n    pass" [
    Node.mk "function_definition" 161 ⟨0, 0⟩ ⟨1, 8⟩ "def main():\n    pass" [
      Node.mk "def" 30 ⟨0, 0⟩ ⟨0, 3⟩ "def" [],
      Node.mk "identifier" 1 ⟨0, 4⟩ ⟨0, 8⟩ "main" [],
      Node.mk "parameters" 147 ⟨0, 8⟩ ⟨0, 10⟩ "()" [
        Node.mk "(" 7 ⟨0, 8⟩ ⟨0, 9⟩ "(" [],
        Node.mk ")" 11 ⟨0, 9⟩ ⟨0, 10⟩ ")" []],
      Node.mk ":" 9 ⟨0, 10⟩ ⟨0, 11⟩ ":" [],
      Node.mk "block" 160 ⟨1, 4⟩ ⟨1, 8⟩ "pass" [
        Node.mk "pass_statement" 127 ⟨1, 4⟩ ⟨1, 8⟩ "pass" []]]]

/-- The function-definition node of a `def main(x):` input, whose
parameter `x` lacks an annotation. -/
def exampleNodeMainX : Node :=
  Node.mk "function_definition" 161 ⟨0, 0⟩ ⟨1, 8⟩ "def main(x):\n    pass" [
    Node.mk "def" 30 ⟨0, 0⟩ ⟨0, 3⟩ "def" [],
    Node.mk "identifier" 1 ⟨0, 4⟩ ⟨0, 8⟩ "main" [],
    Node.mk "parameters" 147 ⟨0, 8⟩ ⟨0, 11⟩ "(x)" [
      Node.mk "(" 7 ⟨0, 8⟩ ⟨0, 9⟩ "(" [],
      Node.mk "identifier" 1 ⟨0, 9⟩ ⟨0, 10⟩ "x" [],
      Node.mk ")" 11 ⟨0, 10⟩ ⟨0, 11⟩ ")" []],
    Node.mk ":" 9 ⟨0, 11⟩ ⟨0, 12⟩ ":" [],
    Node.mk "block" 160 ⟨1, 4⟩ ⟨1, 8⟩ "pass" [
      Node.mk "pass_statement" 127 ⟨1, 4⟩ ⟨1, 8⟩ "pass" []]]

/-- The tree containing `exampleNodeMainX` under a module node. -/
def exampleTreeMainX : Node :=
  Node.mk "module" 110 ⟨0, 0⟩ ⟨1, 8⟩ "def main(x):\n    pass" [exampleNodeMainX]

/-- A malformed function-definition node whose only child is a `type`
node, hence lacking a second child. -/
def exampleTreeTypeOnly : Node :=
  Node.mk "function_definition" 161 ⟨0, 0⟩ ⟨0, 5⟩ "" [
    Node.mk "type" 188 ⟨0, 0⟩ ⟨0, 3⟩ "int" []]

/-- A malformed function-definition node with no children at all. -/
def exampleTreeNoChildren : Node :=
  Node.mk "function_definition" 161 ⟨0, 0⟩ ⟨0, 3⟩ "" []

theorem mem_paramFindings_iff (c : Node) (p : Position) :
    p ∈ paramFindingsOfParameters c ↔
      ∃ inner ∈ c.children,
        (inner.kind_id = IDENTIFIER ∨ inner.kind_id = DEFAULT_PARAMETER) ∧
        inner.text ≠ "self" ∧
        p = ⟨inner.start_position, inner.end_position, MissingType.Parameter inner.text⟩ := by
  simp only [paramFindingsOfParameters, List.mem_filterMap]
  constructor
  · rintro ⟨inner, hi, h⟩
    by_cases h1 : inner.kind_id = IDENTIFIER ∨ inner.kind_id = DEFAULT_PARAMETER
    · rw [if_pos h1] at h
      by_cases h2 : inner.text = "self"
      · rw [if_pos h2] at h; simp at h
      · rw [if_neg h2] at h
        exact ⟨inner, hi, h1, h2, (Option.some_inj.mp h).symm⟩
    · rw [if_neg h1] at h; simp at h
  · rintro ⟨inner, hi, h1, h2, rfl⟩
    exact ⟨inner, hi, by rw [if_pos h1, if_neg h2]⟩

theorem mem_paramPositions_iff (n : Node) (p : Position) :
    p ∈ paramPositions n ↔
      ∃ c ∈ n.children, c.kind_id = PARAMETERS_KIND ∧
        ∃ inner ∈ c.children,
          (inner.kind_id = IDENTIFIER ∨ inner.kind_id = DEFAULT_PARAMETER) ∧
          inner.text ≠ "self" ∧
          p = ⟨inner.start_position, inner.end_position, MissingType.Parameter inner.text⟩ := by
  simp only [paramPositions, List.mem_flatten, List.mem_map, List.mem_filter, beq_iff_eq]
  constructor
  · rintro ⟨l, ⟨c, ⟨hc, hk⟩, rfl⟩, hp⟩
    obtain ⟨inner, hi, h1, h2, rfl⟩ := (mem_paramFindings_iff c p).mp hp
    exact ⟨c, hc, hk, inner, hi, h1, h2, rfl⟩
  · rintro ⟨c, hc, hk, inner, hi, h1, h2, rfl⟩
    exact ⟨paramFindingsOfParameters c, ⟨c, ⟨hc, hk⟩, rfl⟩,
      (mem_paramFindings_iff c _).mpr ⟨inner, hi, h1, h2, rfl⟩⟩

theorem isParam_of_mem_paramPositions (n : Node) (p : Position)
    (h : p ∈ paramPositions n) : isParam p = true := by
  obtain ⟨c, _, _, inner, _, _, _, rfl⟩ := (mem_paramPositions_iff n p).mp h
  rfl

theorem mem_returnPositions (n : Node) (ir : Bool) (ret : List Position)
    (h : returnPositions n ir = some ret) (p : Position) (hp : p ∈ ret) :
    ∃ nm, p.missing_type = MissingType.Return nm ∧ nm ≠ "main" := by
  unfold returnPositions at h
  split at h
  · revert h
    cases hg : n.children.get? 1 with
    | none => intro h; simp at h
    | some identifier =>
      intro h
      dsimp only at h
      by_cases hd : identifier.text == "def"
      · rw [if_pos hd] at h
        revert h
        cases hg2 : n.children.get? 2 with
        | none => intro h; simp at h
        | some identifier2 =>
          intro h
          dsimp only at h
          by_cases hm : identifier2.text == "main"
          · rw [if_pos hm] at h
            obtain rfl := Option.some_inj.mp h
            simp at hp
          · rw [if_neg hm] at h
            obtain rfl := Option.some_inj.mp h
            simp at hp
            subst hp
            exact ⟨identifier2.text, rfl, by simpa using hm⟩
      · rw [if_neg hd] at h
        by_cases hm : identifier.text == "main"
        · rw [if_pos hm] at h
          obtain rfl := Option.some_inj.mp h
          simp at hp
        · rw [if_neg hm] at h
          obtain rfl := Option.some_inj.mp h
          simp at hp
          subst hp
          exact ⟨identifier.text, rfl, by simpa using hm⟩
  · obtain rfl := Option.some_inj.mp h
    simp at hp

theorem returnPositions_true (n : Node) : returnPositions n true = some [] := by
  unfold returnPositions
  simp

theorem returnPositions_of_displayName_main (n : Node) (ir : Bool)
    (h : displayName n = some "main") : returnPositions n ir = some [] := by
  unfold displayName at h
  unfold returnPositions
  split
  · revert h
    cases hg : n.children.get? 1 with
    | none => intro h; simp at h
    | some identifier =>
      intro h
      dsimp only at h ⊢
      by_cases hd : identifier.text == "def"
      · rw [if_pos hd] at h ⊢
        revert h
        cases hg2 : n.children.get? 2 with
        | none => intro h; simp at h
        | some identifier2 =>
          intro h
          dsimp only at h ⊢
          have h2 : identifier2.text = "main" := by simpa using h
          rw [if_pos (by simpa using h2)]
      · rw [if_neg hd] at h ⊢
        have h2 : identifier.text = "main" := by simpa using h
        rw [if_pos (by simpa using h2)]
  · rfl

theorem nodeFindings_of_not_function (n : Node) (ir : Bool)
    (h : ¬ n.kind = "function_definition") : nodeFindings n ir = some [] := by
  unfold nodeFindings
  rw [if_neg (by simpa using h)]

theorem nodeFindings_some_iff (n : Node) (ir : Bool) (l : List Position)
    (hf : n.kind = "function_definition") :
    nodeFindings n ir = some l ↔
      ∃ ret, returnPositions n ir = some ret ∧ l = paramPositions n ++ ret := by
  unfold nodeFindings
  rw [if_pos (by simpa using hf)]
  cases hr : returnPositions n ir with
  | none => simp
  | some ret => simp [eq_comm]

theorem findList_cons_some (a : Node) (as : List Node) (ir : Bool) (r : List Position)
    (h : findList (a :: as) ir = some r) :
    ∃ l r2, nodeFindings a ir = some l ∧ findList as ir = some r2 ∧ r = l ++ r2 := by
  unfold findList at h
  cases hf : nodeFindings a ir with
  | none =>
    rw [hf] at h
    cases hr : findList as ir with
    | none => rw [hr] at h; simp at h
    | some r2 => rw [hr] at h; simp at h
  | some l =>
    rw [hf] at h
    cases hr : findList as ir with
    | none => rw [hr] at h; simp at h
    | some r2 =>
      rw [hr] at h
      simp at h
      exact ⟨l, r2, rfl, rfl, h.symm⟩

theorem findList_some_of_mem (L : List Node) (ir : Bool) (r : List Position)
    (h : findList L ir = some r) (n : Node) (hn : n ∈ L) :
    ∃ l, nodeFindings n ir = some l := by
  induction L generalizing r with
  | nil => simp at hn
  | cons a as ih =>
    obtain ⟨l, r2, hf, hr, rfl⟩ := findList_cons_some a as ir r h
    rcases List.mem_cons.mp hn with rfl | hn2
    · exact ⟨l, hf⟩
    · exact ih r2 hr hn2

theorem mem_findList_iff (L : List Node) (ir : Bool) (r : List Position)
    (h : findList L ir = some r) (p : Position) :
    p ∈ r ↔ ∃ n ∈ L, ∃ l, nodeFindings n ir = some l ∧ p ∈ l := by
  induction L generalizing r with
  | nil =>
    unfold findList at h
    obtain rfl := Option.some_inj.mp h
    simp
  | cons a as ih =>
    obtain ⟨l, r2, hf, hr, rfl⟩ := findList_cons_some a as ir r h
    rw [List.mem_append, ih r2 hr]
    constructor
    · rintro (hp | ⟨n, hn, l2, hfl, hp⟩)
      · exact ⟨a, List.mem_cons_self a as, l, hf, hp⟩
      · exact ⟨n, List.mem_cons_of_mem a hn, l2, hfl, hp⟩
    · rintro ⟨n, hn, l2, hfl, hp⟩
      rcases List.mem_cons.mp hn with rfl | hn2
      · rw [hf] at hfl
        obtain rfl := Option.some_inj.mp hfl
        exact Or.inl hp
      · exact Or.inr ⟨n, hn2, l2, hfl, hp⟩

theorem findList_none_of_mem (L : List Node) (ir : Bool) (n : Node)
    (hn : n ∈ L) (h : nodeFindings n ir = none) : findList L ir = none := by
  induction L with
  | nil => simp at hn
  | cons a as ih =>
    unfold findList
    rcases List.mem_cons.mp hn with rfl | hn2
    · rw [h]
    · rw [ih hn2]
      cases nodeFindings a ir <;> rfl

theorem findList_flatten (L : List Node) (ir : Bool) (r : List Position)
    (h : findList L ir = some r) :
    r = (L.map fun n =>
      if n.kind == "function_definition" then
        paramPositions n ++ (returnPositions n ir).getD []
      else []).flatten := by
  induction L generalizing r with
  | nil =>
    unfold findList at h
    obtain rfl := Option.some_inj.mp h
    rfl
  | cons a as ih =>
    obtain ⟨l, r2, hf, hr, rfl⟩ := findList_cons_some a as ir r h
    simp only [List.map_cons, List.flatten_cons]
    rw [← ih r2 hr]
    congr 1
    unfold nodeFindings at hf
    by_cases hk : (a.kind == "function_definition") = true
    · rw [if_pos hk] at hf ⊢
      cases hrp : returnPositions a ir with
      | none => rw [hrp] at hf; simp at hf
      | some ret =>
        rw [hrp] at hf
        simp only [Option.getD_some]
        simpa using hf.symm
    · rw [if_neg hk] at hf ⊢
      simpa using hf.symm

theorem isParam_false_of_return (p : Position) (nm : String)
    (h : p.missing_type = MissingType.Return nm) : isParam p = false := by
  unfold isParam
  rw [h]

/-- C1: for every function-definition node, detection emits a
`MissingType.Parameter` finding exactly for the children of its
parameter-list children whose kind id is `IDENTIFIER` or
`DEFAULT_PARAMETER` and whose source text is not exactly `self`; parameters
of any other kind (in particular the typed-parameter kinds) are never
flagged, and each emitted finding carries that parameter's own span and
name. -/
theorem c1_parameter_findings_exact (t : Node) (ir : Bool) (r : List Position)
    (h : find_missing_types_positions t ir = some r) (p : Position) :
    (p ∈ r ∧ isParam p = true) ↔
      ∃ n ∈ t.preorder, n.kind = "function_definition" ∧
        ∃ c ∈ n.children, c.kind_id = PARAMETERS_KIND ∧
          ∃ inner ∈ c.children,
            (inner.kind_id = IDENTIFIER ∨ inner.kind_id = DEFAULT_PARAMETER) ∧
            inner.text ≠ "self" ∧
            p = ⟨inner.start_position, inner.end_position, MissingType.Parameter inner.text⟩ := by
  unfold find_missing_types_positions at h
  constructor
  · rintro ⟨hp, hparam⟩
    obtain ⟨n, hn, l, hfl, hpl⟩ := (mem_findList_iff t.preorder ir r h p).mp hp
    by_cases hk : n.kind = "function_definition"
    · obtain ⟨ret, hret, rfl⟩ := (nodeFindings_some_iff n ir l hk).mp hfl
      rcases List.mem_append.mp hpl with hpp | hpr
      · obtain ⟨c, hc, hck, inner, hi, h1, h2, rfl⟩ := (mem_paramPositions_iff n p).mp hpp
        exact ⟨n, hn, hk, c, hc, hck, inner, hi, h1, h2, rfl⟩
      · obtain ⟨nm, hmt, _⟩ := mem_returnPositions n ir ret hret p hpr
        rw [isParam_false_of_return p nm hmt] at hparam
        cases hparam
    · rw [nodeFindings_of_not_function n ir hk] at hfl
      obtain rfl := Option.some_inj.mp hfl
      simp at hpl
  · rintro ⟨n, hn, hk, c, hc, hck, inner, hi, h1, h2, rfl⟩
    have hpp : _ ∈ paramPositions n :=
      (mem_paramPositions_iff n _).mpr ⟨c, hc, hck, inner, hi, h1, h2, rfl⟩
    obtain ⟨l, hfl⟩ := findList_some_of_mem t.preorder ir r h n hn
    obtain ⟨ret, _, rfl⟩ := (nodeFindings_some_iff n ir l hk).mp hfl
    refine ⟨(mem_findList_iff t.preorder ir r h _).mpr
      ⟨n, hn, _, hfl, List.mem_append.mpr (Or.inl hpp)⟩, ?_⟩
    exact isParam_of_mem_paramPositions n _ hpp

/-- C2: for every input tree the finding sequence is a deterministic
function of the tree, equal to the concatenation, over the pre-order list
of nodes, of each function-definition node's parameter findings followed
by its missing-return finding; nested function definitions contribute
independently as separate pre-order entries. -/
theorem c2_preorder_decomposition (t : Node) (ir : Bool) (r : List Position)
    (h : find_missing_types_positions t ir = some r) :
    r = (t.preorder.map fun n =>
      if n.kind == "function_definition" then
        paramPositions n ++ (returnPositions n ir).getD []
      else []).flatten := by
  unfold find_missing_types_positions at h
  exact findList_flatten t.preorder ir r h

/-- C3: detection never emits a missing-return finding whose function name
is `main`: whenever a function node's extracted display name is exactly
`main` the return check contributes nothing, for both values of
`ignore_return`, and accordingly no finding `MissingType.Return "main"`
ever appears in the output. -/
theorem c3_main_never_return_finding (t : Node) (ir : Bool) (r : List Position)
    (h : find_missing_types_positions t ir = some r) :
    (∀ p ∈ r, p.missing_type ≠ MissingType.Return "main") ∧
      (∀ n : Node, displayName n = some "main" → returnPositions n ir = some []) := by
  unfold find_missing_types_positions at h
  refine ⟨?_, fun n hn => returnPositions_of_displayName_main n ir hn⟩
  intro p hp hmt
  obtain ⟨n, _, l, hfl, hpl⟩ := (mem_findList_iff t.preorder ir r h p).mp hp
  by_cases hk : n.kind = "function_definition"
  · obtain ⟨ret, hret, rfl⟩ := (nodeFindings_some_iff n ir l hk).mp hfl
    rcases List.mem_append.mp hpl with hpp | hpr
    · have := isParam_of_mem_paramPositions n p hpp
      rw [isParam_false_of_return p "main" hmt] at this
      cases this
    · obtain ⟨nm, hmt2, hnm⟩ := mem_returnPositions n ir ret hret p hpr
      rw [hmt] at hmt2
      exact hnm (by injection hmt2.symm)
  · rw [nodeFindings_of_not_function n ir hk] at hfl
    obtain rfl := Option.some_inj.mp hfl
    simp at hpl

theorem nodeFindings_true_of_false (n : Node) (l : List Position)
    (h : nodeFindings n false = some l) :
    nodeFindings n true = some (l.filter isParam) := by
  by_cases hk : n.kind = "function_definition"
  · obtain ⟨ret, hret, rfl⟩ := (nodeFindings_some_iff n false l hk).mp h
    refine (nodeFindings_some_iff n true _ hk).mpr ⟨[], returnPositions_true n, ?_⟩
    have h1 : List.filter isParam (paramPositions n) = paramPositions n :=
      List.filter_eq_self.mpr fun p hp => isParam_of_mem_paramPositions n p hp
    have h2 : List.filter isParam ret = [] :=
      List.filter_eq_nil_iff.mpr fun p hp => by
        obtain ⟨nm, hmt, _⟩ := mem_returnPositions n false ret hret p hp
        simp [isParam_false_of_return p nm hmt]
    rw [List.filter_append, h1, h2, List.append_nil]
  · rw [nodeFindings_of_not_function n false hk] at h
    obtain rfl := Option.some_inj.mp h
    rw [nodeFindings_of_not_function n true hk]
    rfl

theorem findList_true_of_false (L : List Node) (r : List Position)
    (h : findList L false = some r) :
    findList L true = some (r.filter isParam) := by
  induction L generalizing r with
  | nil =>
    unfold findList at h ⊢
    obtain rfl := Option.some_inj.mp h
    rfl
  | cons a as ih =>
    obtain ⟨l, r2, hf, hr, rfl⟩ := findList_cons_some a as false r h
    unfold findList
    rw [nodeFindings_true_of_false a l hf, ih r2 hr]
    simp [List.filter_append]

/-- C4: for every tree, when detection with `ignore_return = false`
succeeds with sequence `r`, detection with `ignore_return = true` succeeds
and produces exactly the subsequence of parameter findings of `r` (hence a
subset of `r` containing no return finding). -/
theorem c4_ignore_return_subsequence (t : Node) (r : List Position)
    (h : find_missing_types_positions t false = some r) :
    find_missing_types_positions t true = some (r.filter isParam) := by
  unfold find_missing_types_positions at h ⊢
  exact findList_true_of_false t.preorder r h

/-- Witness for C1: in `def f(a, b: int = 5): pass` the parameter `a` is
reported at its own span while the annotated `b` is not. -/
theorem c1_parameter_findings_exact_witness :
    (⟨⟨0, 6⟩, ⟨0, 7⟩, MissingType.Parameter "a"⟩ : Position) ∈
        [(⟨⟨0, 6⟩, ⟨0, 7⟩, MissingType.Parameter "a"⟩ : Position),
          ⟨⟨0, 0⟩, ⟨1, 8⟩, MissingType.Return "f"⟩] ∧
      isParam ⟨⟨0, 6⟩, ⟨0, 7⟩, MissingType.Parameter "a"⟩ = true :=
  (c1_parameter_findings_exact exampleTreeFAB false
      [⟨⟨0, 6⟩, ⟨0, 7⟩, MissingType.Parameter "a"⟩,
        ⟨⟨0, 0⟩, ⟨1, 8⟩, MissingType.Return "f"⟩] rfl
      ⟨⟨0, 6⟩, ⟨0, 7⟩, MissingType.Parameter "a"⟩).mpr (by decide)

/-- Witness for C2 at the tree of `def f(a, b: int = 5): pass`. -/
theorem c2_preorder_decomposition_witness :
    find_missing_types_positions exampleTreeFAB false =
        some [⟨⟨0, 6⟩, ⟨0, 7⟩, MissingType.Parameter "a"⟩,
          ⟨⟨0, 0⟩, ⟨1, 8⟩, MissingType.Return "f"⟩] ∧
      [(⟨⟨0, 6⟩, ⟨0, 7⟩, MissingType.Parameter "a"⟩ : Position),
          ⟨⟨0, 0⟩, ⟨1, 8⟩, MissingType.Return "f"⟩] =
        (exampleTreeFAB.preorder.map fun n =>
          if n.kind == "function_definition" then
            paramPositions n ++ (returnPositions n false).getD []
          else []).flatten :=
  ⟨rfl, c2_preorder_decomposition exampleTreeFAB false
    [⟨⟨0, 6⟩, ⟨0, 7⟩, MissingType.Parameter "a"⟩,
      ⟨⟨0, 0⟩, ⟨1, 8⟩, MissingType.Return "f"⟩] rfl⟩

/-- Witness for C3 at the tree of `def main(x): pass`: its only finding is
the parameter finding for `x`, not a return finding. -/
theorem c3_main_never_return_finding_witness :
    (⟨⟨0, 9⟩, ⟨0, 10⟩, MissingType.Parameter "x"⟩ : Position).missing_type ≠
        MissingType.Return "main" ∧
      returnPositions exampleNodeMainX false = some [] :=
  ⟨(c3_main_never_return_finding exampleTreeMainX false
        [⟨⟨0, 9⟩, ⟨0, 10⟩, MissingType.Parameter "x"⟩] rfl).1
      ⟨⟨0, 9⟩, ⟨0, 10⟩, MissingType.Parameter "x"⟩ (List.mem_cons_self _ _),
    (c3_main_never_return_finding exampleTreeMainX false
        [⟨⟨0, 9⟩, ⟨0, 10⟩, MissingType.Parameter "x"⟩] rfl).2 exampleNodeMainX rfl⟩

/-- Witness for C4 at the tree of `def f(a, b: int = 5): pass`: with
`ignore_return = true` only the parameter finding for `a` remains. -/
theorem c4_ignore_return_subsequence_witness :
    find_missing_types_positions exampleTreeFAB true =
      some ([(⟨⟨0, 6⟩, ⟨0, 7⟩, MissingType.Parameter "a"⟩ : Position),
        ⟨⟨0, 0⟩, ⟨1, 8⟩, MissingType.Return "f"⟩].filter isParam) :=
  c4_ignore_return_subsequence exampleTreeFAB
    [⟨⟨0, 6⟩, ⟨0, 7⟩, MissingType.Parameter "a"⟩,
      ⟨⟨0, 0⟩, ⟨1, 8⟩, MissingType.Return "f"⟩] rfl

/-- C8 counterexample: a tree whose function-definition node lacks a second
child but on which detection does not abort: the node's only child has kind
`type`, so the missing-return check never runs and detection succeeds for
both values of `ignore_return`. -/
theorem c8_counterexample_no_abort :
    exampleTreeTypeOnly.kind = "function_definition" ∧
      exampleTreeTypeOnly.children.get? 1 = none ∧
      find_missing_types_positions exampleTreeTypeOnly false = some [] ∧
      find_missing_types_positions exampleTreeTypeOnly true = some [] :=
  ⟨rfl, rfl, rfl, rfl⟩

/-- C8 (amended): with `ignore_return = false`, a tree containing a
function-definition node that lacks a second child and has no child of
kind `type` makes detection abort with a hard error (`none`) rather than
silently skip that function. -/
theorem c8_missing_child_aborts (t n : Node)
    (hn : n ∈ t.preorder) (hk : n.kind = "function_definition")
    (h1 : n.children.get? 1 = none) (h2 : ∀ c ∈ n.children, c.kind ≠ "type") :
    find_missing_types_positions t false = none := by
  unfold find_missing_types_positions
  refine findList_none_of_mem t.preorder false n hn ?_
  have hany : (n.children.any fun c => c.kind == "type") = false := by
    rw [List.any_eq_false]
    intro c hc
    simpa using h2 c hc
  have hrp : returnPositions n false = none := by
    unfold returnPositions
    rw [hany, h1]
    rfl
  unfold nodeFindings
  rw [if_pos (by simpa using hk), hrp]

/-- Witness for the amended C8: a childless function-definition node makes
detection abort. -/
theorem c8_missing_child_aborts_witness :
    find_missing_types_positions exampleTreeNoChildren false = none :=
  c8_missing_child_aborts exampleTreeNoChildren exampleTreeNoChildren
    (List.mem_cons_self _ _) rfl rfl
    (fun c hc => absurd hc (List.not_mem_nil c))

/-- C10: the `main` exclusion applies only to the missing-return finding: a
function-definition node whose extracted display name is exactly `main`
still contributes exactly its parameter findings, and every parameter-list
child's unannotated non-`self` parameter appears among them with its own
span and name. -/
theorem c10_main_params_still_flagged (n : Node) (ir : Bool)
    (hk : n.kind = "function_definition") (hm : displayName n = some "main") :
    nodeFindings n ir = some (paramPositions n) ∧
      ∀ c ∈ n.children, c.kind_id = PARAMETERS_KIND →
        ∀ inner ∈ c.children,
          (inner.kind_id = IDENTIFIER ∨ inner.kind_id = DEFAULT_PARAMETER) →
          inner.text ≠ "self" →
          (⟨inner.start_position, inner.end_position,
            MissingType.Parameter inner.text⟩ : Position) ∈ paramPositions n := by
  constructor
  · exact (nodeFindings_some_iff n ir _ hk).mpr
      ⟨[], returnPositions_of_displayName_main n ir hm, (List.append_nil _).symm⟩
  · intro c hc hck inner hi h1 h2
    exact (mem_paramPositions_iff n _).mpr ⟨c, hc, hck, inner, hi, h1, h2, rfl⟩

/-- Witness for C10 at the function node of `def main(x): pass`: the
parameter `x` is still flagged. -/
theorem c10_main_params_still_flagged_witness :
    nodeFindings exampleNodeMainX false = some (paramPositions exampleNodeMainX) ∧
      (⟨⟨0, 9⟩, ⟨0, 10⟩, MissingType.Parameter "x"⟩ : Position) ∈
        paramPositions exampleNodeMainX :=
  ⟨(c10_main_params_still_flagged exampleNodeMainX false rfl rfl).1,
    (c10_main_params_still_flagged exampleNodeMainX false rfl rfl).2
      (Node.mk "parameters" 147 ⟨0, 8⟩ ⟨0, 11⟩ "(x)" [
        Node.mk "(" 7 ⟨0, 8⟩ ⟨0, 9⟩ "(" [],
        Node.mk "identifier" 1 ⟨0, 9⟩ ⟨0, 10⟩ "x" [],
        Node.mk ")" 11 ⟨0, 10⟩ ⟨0, 11⟩ ")" []])
      (List.mem_cons_of_mem _ (List.mem_cons_of_mem _ (List.mem_cons_self _ _))) rfl
      (Node.mk "identifier" 1 ⟨0, 9⟩ ⟨0, 10⟩ "x" [])
      (List.mem_cons_of_mem _ (List.mem_cons_self _ _)) (Or.inl rfl) (by decide)⟩

theorem string_eq_empty_iff (s : String) : s = "" ↔ s.data = [] := by
  constructor
  · intro h; subst h; rfl
  · intro h
    apply String.ext
    simpa using h

theorem concatStrings_data (l : List String) :
    (concatStrings l).data = (l.map String.data).flatten := by
  induction l with
  | nil => rfl
  | cons s rest ih =>
    simp only [concatStrings, List.map_cons, List.flatten_cons, String.data_append, ih]

theorem appendFindingLine_eq (m : String) (p : Position) :
    appendFindingLine m p = m ++ render_finding_spec p := by
  unfold appendFindingLine render_finding_spec
  cases p.missing_type <;> rfl

theorem foldl_appendFindingLine (ps : List Position) :
    ∀ init : String,
      ps.foldl appendFindingLine init =
        init ++ concatStrings (ps.map render_finding_spec) := by
  induction ps with
  | nil =>
    intro init
    apply String.ext
    simp [concatStrings, String.data_append]
  | cons p rest ih =>
    intro init
    simp only [List.foldl_cons, List.map_cons]
    rw [appendFindingLine_eq, ih]
    apply String.ext
    simp [concatStrings, String.data_append, List.append_assoc]

theorem render_spec_newline (p : Position) :
    render_finding_spec p = render_finding_body p ++ "\n" := by
  unfold render_finding_spec render_finding_body
  cases p.missing_type <;>
    · apply String.ext
      simp [String.data_append]

/-- C5: the formatter renders each finding as exactly one line — the
return template or the parameter template, with rows and columns shifted to
1-based — each line newline-terminated, concatenated in input order, and
the empty finding sequence yields the empty text. -/
theorem c5_formatter_renders_lines (positions : List Position) :
    get_message_from_positions positions =
        concatStrings (positions.map render_finding_spec) ∧
      get_message_from_positions [] = "" ∧
      ∀ p : Position, render_finding_spec p = render_finding_body p ++ "\n" := by
  refine ⟨?_, rfl, render_spec_newline⟩
  unfold get_message_from_positions
  rw [foldl_appendFindingLine]
  apply String.ext
  simp [String.data_append]

theorem digitChar_ne_newline (d : Nat) (h : d < 10) : digitChar d ≠ '\n' := by
  interval_cases d <;> decide

theorem natDigitsAux_no_newline (fuel : Nat) : ∀ n, '\n' ∉ natDigitsAux fuel n := by
  induction fuel with
  | zero => intro n; simp [natDigitsAux]
  | succ fuel ih =>
    intro n
    unfold natDigitsAux
    split
    · rename_i h
      simp only [List.mem_singleton]
      exact fun hc => digitChar_ne_newline n h hc.symm
    · rw [List.mem_append]
      rintro (hc | hc)
      · exact ih (n / 10) hc
      · simp only [List.mem_singleton] at hc
        exact digitChar_ne_newline (n % 10) (Nat.mod_lt _ (by omega)) hc.symm

theorem natDigits_no_newline (n : Nat) : '\n' ∉ natDigits n :=
  natDigitsAux_no_newline (n + 1) n

theorem natToStr_no_newline (n : Nat) : '\n' ∉ (natToStr n).data :=
  natDigits_no_newline n

theorem render_body_no_newline (p : Position)
    (h : '\n' ∉ (findingName p.missing_type).data) :
    '\n' ∉ (render_finding_body p).data := by
  unfold render_finding_body
  cases hm : p.missing_type with
  | Return name =>
    rw [hm] at h
    intro hc
    simp only [String.data_append, List.mem_append] at hc
    rcases hc with ((((((hc | hc) | hc) | hc) | hc) | hc) | hc)
    · exact absurd hc (by decide)
    · exact h hc
    · exact absurd hc (by decide)
    · exact absurd hc (natToStr_no_newline _)
    · exact absurd hc (by decide)
    · exact absurd hc (natToStr_no_newline _)
    · exact absurd hc (by decide)
  | Parameter name =>
    rw [hm] at h
    intro hc
    simp only [String.data_append, List.mem_append] at hc
    rcases hc with ((((((hc | hc) | hc) | hc) | hc) | hc) | hc)
    · exact absurd hc (by decide)
    · exact h hc
    · exact absurd hc (by decide)
    · exact absurd hc (natToStr_no_newline _)
    · exact absurd hc (by decide)
    · exact absurd hc (natToStr_no_newline _)
    · exact absurd hc (by decide)

theorem rustSplit_line (sep : Char) (body rest : List Char) (h : sep ∉ body) :
    rustSplit sep (body ++ sep :: rest) = body :: rustSplit sep rest := by
  induction body with
  | nil =>
    simp only [List.nil_append]
    simp only [rustSplit]
    simp
  | cons a body ih =>
    have ha : a ≠ sep := fun hh => h (hh ▸ List.mem_cons_self a body)
    simp only [List.cons_append]
    simp only [rustSplit]
    rw [if_neg ha, ih fun hm => h (List.mem_cons_of_mem a hm)]

theorem rustSplit_message (ps : List Position)
    (h : ∀ p ∈ ps, '\n' ∉ (render_finding_body p).data) :
    rustSplit '\n' (concatStrings (ps.map render_finding_spec)).data =
      (ps.map fun p => (render_finding_body p).data) ++ [[]] := by
  induction ps with
  | nil => rfl
  | cons p rest ih =>
    have h1 := h p (List.mem_cons_self p rest)
    have h2 : ∀ q ∈ rest, '\n' ∉ (render_finding_body q).data :=
      fun q hq => h q (List.mem_cons_of_mem p hq)
    simp only [List.map_cons, concatStrings, String.data_append, render_spec_newline,
      List.append_assoc]
    have hnl : ("\n".data : List Char) ++ (concatStrings (rest.map render_finding_spec)).data =
        '\n' :: (concatStrings (rest.map render_finding_spec)).data := rfl
    rw [hnl, rustSplit_line '\n' _ _ h1, ih h2]
    rfl

theorem get_message_ne_empty (ps : List Position) (h : ps ≠ []) :
    get_message_from_positions ps ≠ "" := by
  cases ps with
  | nil => exact absurd rfl h
  | cons p rest =>
    unfold get_message_from_positions
    rw [foldl_appendFindingLine]
    intro h2
    rw [string_eq_empty_iff] at h2
    rw [String.data_append, concatStrings_data] at h2
    simp only [List.map_cons, List.flatten_cons, render_spec_newline, String.data_append,
      List.append_assoc] at h2
    simp at h2

/-- C6 counterexample: for the single diagnostic line `x` the contributed
block is the header and the indented line followed by one extra line made
of the indent prefix alone, so the block is not exactly the header plus the
indented diagnostic lines and nothing else. -/
theorem c6_counterexample_trailing_indent :
    add_to_message_from_file ⟨false, "a.py", "a.py", "x\n"⟩ =
        "File: a.py\n    x\n    \n" ∧
      add_to_message_from_file ⟨false, "a.py", "a.py", "x\n"⟩ ≠
        "File: a.py\n    x\n" := by
  constructor
  · decide
  · decide

/-- C6 (amended): a `.py` file entry whose detector output is the formatted
message of a non-empty finding list contributes the header line
`File: <path>`, then each diagnostic line indented by four spaces, then one
trailing line consisting of the four-space indent alone (an artifact of
splitting the newline-terminated message on newlines); an entry with empty
detector output contributes nothing, not even a header. -/
theorem c6_file_block_content (entry : DirEntryModel) (ps : List Position)
    (hdir : entry.is_dir = false)
    (hpy : strEndsWith entry.file_name ".py" = true)
    (hout : entry.detector_output = get_message_from_positions ps)
    (hne : ps ≠ [])
    (hnames : ∀ p ∈ ps, '\n' ∉ (findingName p.missing_type).data) :
    add_to_message_from_file entry =
      ("File: " ++ entry.path ++ "\n") ++
        concatStrings (ps.map fun p => "    " ++ render_finding_body p ++ "\n") ++
        "    \n" ∧
      ∀ entry2 : DirEntryModel, entry2.detector_output = "" →
        add_to_message_from_file entry2 = "" := by
  constructor
  · have hbody : ∀ p ∈ ps, '\n' ∉ (render_finding_body p).data :=
      fun p hp => render_body_no_newline p (hnames p hp)
    unfold add_to_message_from_file
    rw [hdir, hpy]
    simp only [Bool.not_false, Bool.and_self, if_pos]
    rw [if_neg (by rw [hout]; exact get_message_ne_empty ps hne)]
    rw [hout]
    unfold get_message_from_positions
    rw [foldl_appendFindingLine]
    have hinit : ("" : String) ++ concatStrings (ps.map render_finding_spec) =
        concatStrings (ps.map render_finding_spec) := by
      apply String.ext
      simp [String.data_append]
    rw [hinit, rustSplit_message ps hbody]
    apply String.ext
    simp only [String.data_append, concatStrings_data, List.map_append, List.map_map,
      List.flatten_append, List.append_assoc]
    congr 1
  · intro entry2 h2
    unfold add_to_message_from_file
    rw [h2]
    split
    · rw [if_pos rfl]
    · rfl

/-- Witness for the amended C6: one finding for parameter `x` produces the
header, one indented line and the trailing indent-only line; a file with
empty detector output contributes nothing. -/
theorem c6_file_block_content_witness :
    add_to_message_from_file
        ⟨false, "a.py", "a.py",
          "Parameter \x27x\x27 in line 1 and column 10 is missing a type hint.\n"⟩ =
        ("File: " ++ "a.py" ++ "\n") ++
          concatStrings
            ([(⟨⟨0, 9⟩, ⟨0, 10⟩, MissingType.Parameter "x"⟩ : Position)].map
              fun p => "    " ++ render_finding_body p ++ "\n") ++
          "    \n" ∧
      add_to_message_from_file ⟨false, "b.py", "b.py", ""⟩ = "" :=
  ⟨(c6_file_block_content
      ⟨false, "a.py", "a.py",
        "Parameter \x27x\x27 in line 1 and column 10 is missing a type hint.\n"⟩
      [⟨⟨0, 9⟩, ⟨0, 10⟩, MissingType.Parameter "x"⟩]
      rfl (by decide) (by decide) (by decide) (by decide)).1,
    (c6_file_block_content
      ⟨false, "a.py", "a.py",
        "Parameter \x27x\x27 in line 1 and column 10 is missing a type hint.\n"⟩
      [⟨⟨0, 9⟩, ⟨0, 10⟩, MissingType.Parameter "x"⟩]
      rfl (by decide) (by decide) (by decide) (by decide)).2
      ⟨false, "b.py", "b.py", ""⟩ rfl⟩

theorem foldl_run_directory (entries : List DirEntryModel) :
    ∀ init : String,
      entries.foldl (fun message entry => message ++ add_to_message_from_file entry) init =
        init ++ concatStrings (entries.map add_to_message_from_file) := by
  induction entries with
  | nil =>
    intro init
    apply String.ext
    simp [concatStrings, String.data_append]
  | cons e es ih =>
    intro init
    simp only [List.foldl_cons, List.map_cons, concatStrings]
    rw [ih]
    apply String.ext
    simp [String.data_append, List.append_assoc]

theorem concatStrings_empty (l : List String) (h : ∀ s ∈ l, s = "") :
    concatStrings l = "" := by
  induction l with
  | nil => rfl
  | cons s rest ih =>
    rw [concatStrings, h s (List.mem_cons_self s rest),
      ih fun t ht => h t (List.mem_cons_of_mem s ht)]
    rfl

theorem concatStrings_ne_empty (l : List String) (s : String) (hs : s ∈ l)
    (h : s ≠ "") : concatStrings l ≠ "" := by
  intro h2
  rw [string_eq_empty_iff, concatStrings_data] at h2
  apply h
  rw [string_eq_empty_iff]
  exact List.flatten_eq_nil_iff.mp h2 s.data (List.mem_map_of_mem String.data hs)

theorem run_directory_eq_concat (entries : List DirEntryModel) :
    run_directory entries = concatStrings (entries.map add_to_message_from_file) := by
  unfold run_directory
  rw [foldl_run_directory]
  apply String.ext
  simp [String.data_append]

/-- C7: in directory mode, when every entry of the run contributes nothing
to the report, the program prints exactly the success sentinel line `✨
All good!`, and when some entry contributes text it prints the accumulated
report itself, which is non-empty, and no sentinel; in single-file mode,
a file with no findings prints exactly the sentinel and a file with
findings prints its non-empty formatted report and no sentinel. -/
theorem c7_success_sentinel (entries : List DirEntryModel) (ps : List Position) :
    ((∀ e ∈ entries, add_to_message_from_file e = "") →
        program_output (run_directory entries) = allGoodLine) ∧
      ((∃ e ∈ entries, add_to_message_from_file e ≠ "") →
        program_output (run_directory entries) = run_directory entries ∧
          run_directory entries ≠ "") ∧
      (ps = [] → run_single_file ps = allGoodLine) ∧
      (ps ≠ [] → run_single_file ps = get_message_from_positions ps ∧
        get_message_from_positions ps ≠ "") := by
  refine ⟨?_, ?_, ?_, ?_⟩
  · intro h
    rw [run_directory_eq_concat, concatStrings_empty _ ?_]
    · rfl
    · rintro s hs
      obtain ⟨e, he, rfl⟩ := List.mem_map.mp hs
      exact h e he
  · rintro ⟨e, he, hne⟩
    have hne2 : run_directory entries ≠ "" := by
      rw [run_directory_eq_concat]
      exact concatStrings_ne_empty _ _ (List.mem_map_of_mem _ he) hne
    refine ⟨?_, hne2⟩
    unfold program_output
    rw [if_neg hne2]
  · rintro rfl
    rfl
  · intro h
    have hne2 := get_message_ne_empty ps h
    refine ⟨?_, hne2⟩
    unfold run_single_file program_output
    rw [if_neg hne2]

/-- Witness for C7: a directory run over one clean file prints the
sentinel and one over a file with findings prints the report itself; a
single-file run with no findings prints the sentinel and one with a
finding prints its formatted message. -/
theorem c7_success_sentinel_witness :
    program_output (run_directory [⟨false, "a.py", "a.py", ""⟩]) = allGoodLine ∧
      program_output (run_directory [⟨false, "b.py", "b.py", "x\n"⟩]) =
        run_directory [⟨false, "b.py", "b.py", "x\n"⟩] ∧
      run_single_file [] = allGoodLine ∧
      run_single_file [⟨⟨0, 9⟩, ⟨0, 10⟩, MissingType.Parameter "x"⟩] =
        get_message_from_positions [⟨⟨0, 9⟩, ⟨0, 10⟩, MissingType.Parameter "x"⟩] :=
  ⟨(c7_success_sentinel [⟨false, "a.py", "a.py", ""⟩] []).1 (by decide),
    ((c7_success_sentinel [⟨false, "b.py", "b.py", "x\n"⟩] []).2.1 (by decide)).1,
    (c7_success_sentinel [] []).2.2.1 rfl,
    ((c7_success_sentinel []
        [⟨⟨0, 9⟩, ⟨0, 10⟩, MissingType.Parameter "x"⟩]).2.2.2 (by decide)).1⟩

mutual

theorem mem_visit_keep (keep : FsEntry → Bool) (root : FsEntry) :
    ∀ e ∈ visit keep root, keep e = true := by
  match root with
  | .mk n d cs =>
    intro e he
    unfold visit at he
    by_cases hk : keep (.mk n d cs) = true
    · rw [if_pos hk] at he
      rcases List.mem_cons.mp he with rfl | h2
      · exact hk
      · exact mem_visitList_keep keep cs e h2
    · rw [if_neg hk] at he
      exact absurd he (List.not_mem_nil e)

theorem mem_visitList_keep (keep : FsEntry → Bool) (l : List FsEntry) :
    ∀ e ∈ visitList keep l, keep e = true := by
  match l with
  | [] => intro e he; exact absurd he (List.not_mem_nil e)
  | c :: cs =>
    intro e he
    unfold visitList at he
    rcases List.mem_append.mp he with h2 | h2
    · exact mem_visit_keep keep c e h2
    · exact mem_visitList_keep keep cs e h2

end

/-- C9: in directory mode with `ignore_hidden = true` (either value of
`ignore_tests`), every visited entry whose name starts with `.` has the
name `.` itself (the walk root); since an entry failing the filter is
neither yielded nor descended into, no other dot-named path is ever
visited. -/
theorem c9_hidden_never_visited (ignore_tests : Bool) (root e : FsEntry)
    (h : e ∈ walkdir_visit (filtersFor true ignore_tests) root)
    (hdot : startsWithChar e.name '.' = true) : e.name = "." := by
  have hk := mem_visit_keep (should_be_processed_all (filtersFor true ignore_tests)) root e h
  unfold should_be_processed_all at hk
  rw [List.all_eq_true] at hk
  have hnh : notHidden_should_be_processed e = true :=
    hk _ (List.mem_append.mpr (Or.inl (List.mem_cons_self _ _)))
  unfold notHidden_should_be_processed at hnh
  rw [hdot] at hnh
  simpa using hnh

/-- Witness for C9: in a walk rooted at `.` containing a hidden directory,
the root itself is visited and is the only dot-named entry allowed. -/
theorem c9_hidden_never_visited_witness :
    FsEntry.name
        (FsEntry.mk "." true [FsEntry.mk ".git" true [], FsEntry.mk "a.py" false []]) =
      "." :=
  c9_hidden_never_visited false
    (FsEntry.mk "." true [FsEntry.mk ".git" true [], FsEntry.mk "a.py" false []])
    (FsEntry.mk "." true [FsEntry.mk ".git" true [], FsEntry.mk "a.py" false []])
    (List.mem_cons_self _ _) rfl

end Checker
